import Mathlib

/-!
Verification development for the collaborative incident-log synchronization
core of the referee.fyi repository.

The embedding covers:
* the consistency layer: `mergeLWW`, `mergeGrowSet` and `mergeMap`
  (`lib/consistency`);
* the per-event server object `EventIncidents`
  (`worker/sync/src/incidents.ts`): its storage helpers, HTTP mutation
  handlers, socket message dispatch, session join and CSV export;
* the client scratchpad / incident edit paths (`src/utils/data`).

Records with per-field metadata are embedded as structures whose field part
is a function from an abstract key type `K` to a value type `V`; JavaScript
objects used as string-keyed dictionaries are embedded as association lists
`List (String × α)` with a last-entry-wins lookup mirroring object spread
semantics.
-/

namespace RefereeFyi

/-- Lookup in an association list where the *last* binding for a key wins,
mirroring the semantics of building a JavaScript object with spreads
(`{ ...a, ...b }`: later keys override earlier ones). -/
def jsLookup {α : Type} (l : List (String × α)) (id : String) : Option α :=
  match l with
  | [] => none
  | (k, v) :: rest =>
    match jsLookup rest id with
    | some w => some w
    | none => if k = id then some v else none

theorem jsLookup_nil {α : Type} (id : String) : jsLookup ([] : List (String × α)) id = none := rfl

theorem jsLookup_append {α : Type} (l₁ l₂ : List (String × α)) (id : String) :
    jsLookup (l₁ ++ l₂) id =
      match jsLookup l₂ id with
      | some w => some w
      | none => jsLookup l₁ id := by
  induction l₁ with
  | nil =>
    cases h : jsLookup l₂ id <;> simp [jsLookup, h]
  | cons p rest ih =>
    obtain ⟨k, v⟩ := p
    show (match jsLookup (rest ++ l₂) id with
          | some w => some w
          | none => if k = id then some v else none) = _
    rw [ih]
    cases jsLookup l₂ id with
    | some w => rfl
    | none => rfl

theorem jsLookup_eq_some_mem {α : Type} {l : List (String × α)} {id : String} {v : α}
    (h : jsLookup l id = some v) : (id, v) ∈ l := by
  induction l with
  | nil => simp [jsLookup] at h
  | cons p rest ih =>
    obtain ⟨k, w⟩ := p
    simp only [jsLookup] at h
    cases hr : jsLookup rest id with
    | some u =>
      rw [hr] at h
      exact List.mem_cons_of_mem _ (ih (hr.trans h))
    | none =>
      rw [hr] at h
      by_cases hk : k = id
      · simp [hk] at h
        subst hk h
        exact List.mem_cons_self _ _
      · simp [hk] at h

theorem jsLookup_isSome_of_mem {α : Type} {l : List (String × α)} {id : String}
    (h : id ∈ l.map Prod.fst) : ∃ v, jsLookup l id = some v := by
  induction l with
  | nil => simp at h
  | cons p rest ih =>
    obtain ⟨k, w⟩ := p
    simp only [List.map_cons, List.mem_cons] at h
    simp only [jsLookup]
    cases hr : jsLookup rest id with
    | some u => exact ⟨u, rfl⟩
    | none =>
      rcases h with h | h
      · exact ⟨w, by simp [h]⟩
      · obtain ⟨v, hv⟩ := ih h
        rw [hv] at hr
        exact absurd hr (by simp)

theorem jsLookup_map_key {α : Type} (l : List String) (g : String → α) (id : String) :
    jsLookup (l.map fun s => (s, g s)) id = if id ∈ l then some (g id) else none := by
  induction l with
  | nil => simp [jsLookup]
  | cons s rest ih =>
    simp only [List.map_cons, jsLookup, ih]
    by_cases hm : id ∈ rest
    · simp [hm]
    · by_cases hs : s = id
      · subst hs
        simp [hm]
      · simp [hm, hs, Ne.symm hs, List.mem_cons]

theorem jsLookup_filterMap_key {α : Type} {l : List String} {h : String → Option α}
    (hl : ∀ s ∈ l, (h s).isSome) (id : String) :
    jsLookup (l.filterMap fun i => (h i).map fun e => (i, e)) id =
      if id ∈ l then h id else none := by
  induction l with
  | nil => simp [jsLookup]
  | cons s rest ih =>
    have hs : (h s).isSome := hl s (List.mem_cons_self _ _)
    obtain ⟨v, hv⟩ := Option.isSome_iff_exists.mp hs
    have ih := ih (fun x hx => hl x (List.mem_cons_of_mem _ hx))
    simp only [List.filterMap_cons, hv, Option.map_some, jsLookup, ih]
    by_cases hm : id ∈ rest
    · obtain ⟨w, hw⟩ := Option.isSome_iff_exists.mp (hl id (List.mem_cons_of_mem _ hm))
      simp [hm, hw]
    · by_cases hse : s = id
      · subst hse
        simp [hm, hv]
      · simp [hm, hse, Ne.symm hse, List.mem_cons]

/-- Pointwise-defined `filterMap` collapses to `map`. -/
theorem filterMap_eq_map_of {α β : Type} {l : List α} {f : α → Option β} {g : α → β}
    (h : ∀ a ∈ l, f a = some (g a)) : l.filterMap f = l.map g := by
  induction l with
  | nil => rfl
  | cons a rest ih =>
    simp only [List.filterMap_cons, h a (List.mem_cons_self _ _), List.map_cons,
      ih fun x hx => h x (List.mem_cons_of_mem _ hx)]

/-- Per-field consistency metadata (`FieldMeta` in the consistency library):
an edit counter, the id of the most recent writer, and the edit history of
`{prev, peer}` pairs. -/
structure FieldMeta (V : Type) where
  count : Nat
  peer : String
  history : List (V × String)
deriving DecidableEq

/-- A record wrapped with per-field LWW metadata (`WithLWWConsistency` over a
`HasId` record). The non-ignored fields of the underlying record are
embedded as a function from the key type `K`; `id` is the immutable
identity field, which never participates in merges. -/
@[ext]
structure LWWEnv (K V : Type) where
  id : String
  value : K → V
  consistency : K → FieldMeta V

/-- Lexicographic comparison of two character lists, embedding the
JavaScript `<` operator on peer-id strings; written as a structural
recursion so that concrete comparisons evaluate inside the kernel. -/
def strLtB : List Char → List Char → Bool
  | [], [] => false
  | [], _ :: _ => true
  | _ :: _, [] => false
  | a :: as, b :: bs =>
    if a.toNat < b.toNat then true
    else if b.toNat < a.toNat then false
    else strLtB as bs

/-- JavaScript `<` on peer-id strings. -/
def peerLt (a b : String) : Bool := strLtB a.data b.data

/-- Modelled from the spec: the per-key winner selection of `mergeLWW`
(`lib/consistency/lww.ts` is absent from the sources; only its tests and
its callers are present). Returns `true` when the local side wins key `k`:
the higher count wins; on a count tie, deep-equal values keep local, and
otherwise the side whose most-recent-writer peer id is lexicographically
larger wins. -/
def lwwLocalWins {K V : Type} [DecidableEq V] (x y : LWWEnv K V) (k : K) : Bool :=
  if (x.consistency k).count > (y.consistency k).count then true
  else if (x.consistency k).count < (y.consistency k).count then false
  else if x.value k = y.value k then true
  else if peerLt (x.consistency k).peer (y.consistency k).peer then false
  else true

/-- The result shape of `mergeLWW`: the resolved envelope (or `none` when
both operands are null), the keys on which the remote side won (`changed`)
and the keys on which an outdated or tie-losing remote was rebuffed
(`rejected`). -/
structure LWWMergeResult (K V : Type) where
  resolved : Option (LWWEnv K V)
  changed : List K
  rejected : List K

/-- Modelled from the spec: `mergeLWW` (`lib/consistency/lww.ts` is absent
from the sources). Null rules: both null gives a null resolved value; local
only returns local unchanged; remote only returns remote with every key in
`changed`. With both sides present each key is taken from its winner;
`changed` collects the keys the remote side won, and `rejected` collects
the count-tie keys the local side won on peer comparison together with the
higher-count local wins where the remote history holds an entry the local
history lacks. -/
def mergeLWW {K V : Type} [DecidableEq K] [DecidableEq V] (keys : List K)
    (localEnv remoteEnv : Option (LWWEnv K V)) : LWWMergeResult K V :=
  match localEnv, remoteEnv with
  | none, none => { resolved := none, changed := [], rejected := [] }
  | some x, none => { resolved := some x, changed := [], rejected := [] }
  | none, some y => { resolved := some y, changed := keys, rejected := [] }
  | some x, some y =>
    { resolved := some
        { id := x.id
          value := fun k => if lwwLocalWins x y k then x.value k else y.value k
          consistency := fun k =>
            if lwwLocalWins x y k then x.consistency k else y.consistency k }
      changed := keys.filter fun k => ! lwwLocalWins x y k
      rejected := keys.filter fun k =>
        lwwLocalWins x y k &&
          (if (x.consistency k).count > (y.consistency k).count then
            (y.consistency k).history.any fun e =>
              ! (x.consistency k).history.contains e
          else
            decide ((x.consistency k).count = (y.consistency k).count) &&
              ! decide (x.value k = y.value k)) }

/-- Result of `mergeGrowSet` (`lib/consistency/gset.ts`). -/
structure GrowSetMergeResult where
  resolved : List String
  localOnly : List String
  remoteOnly : List String
deriving DecidableEq

/-- Modelled from the spec: `mergeGrowSet` (`lib/consistency/gset.ts` is
absent from the sources). The merge is set union; `localOnly` holds the
ids only the local side knows and `remoteOnly` the ids only the remote
side knows — the naming under which the in-repo test
`map.test.ts "deleted values merged"` passes through `mergeMap`. -/
def mergeGrowSet (localSet remoteSet : List String) : GrowSetMergeResult :=
  { resolved := localSet ++ remoteSet.filter fun id => ! localSet.contains id
    localOnly := localSet.filter fun id => ! remoteSet.contains id
    remoteOnly := remoteSet.filter fun id => ! localSet.contains id }

/-- `ConsistentMap` (`lib/consistency/map.ts`): a tombstone id list plus a
string-keyed dictionary of enveloped records. -/
structure ConsistentMap (K V : Type) where
  deleted : List String
  values : List (String × LWWEnv K V)

/-- One push direction of `ConsistentMapMergeResult`: the ids to save
locally, resp. the ids to notify the opposing client about. -/
structure ConsistentMapPush where
  values : List String
  deleted : List String
deriving DecidableEq

/-- `ConsistentMapMergeResult` (`lib/consistency/map.ts`). The source's
`local` and `remote` fields are named `localPush` and `remotePush` here
because `local` is a Lean keyword. -/
structure ConsistentMapMergeResult (K V : Type) where
  resolved : ConsistentMap K V
  localPush : ConsistentMapPush
  remotePush : ConsistentMapPush

/-- `mergeMap` (`lib/consistency/map.ts`, lines 435-498 of the source
bundle): partition the ids, merge the shared ids with `mergeLWW`, merge
the tombstones with `mergeGrowSet`, and assemble the resolved dictionary
from the local-only, remote-only and merged-shared slices. The source's
non-null assertions `result.resolved!` are embedded with
`Option.map`/`List.filterMap`; for shared ids `resolved` is always
`some`. -/
def mergeMap {K V : Type} [DecidableEq K] [DecidableEq V] (keys : List K)
    (localMap remoteMap : ConsistentMap K V) : ConsistentMapMergeResult K V :=
  let localIds := localMap.values.map Prod.fst
  let remoteIds := remoteMap.values.map Prod.fst
  let localOnlyIds := localIds.filter fun id => ! remoteIds.contains id
  let remoteOnlyIds := remoteIds.filter fun id => ! localIds.contains id
  let sharedIds := localIds.filter fun id => remoteIds.contains id
  let mergeResults := sharedIds.map fun id =>
    mergeLWW keys (jsLookup localMap.values id) (jsLookup remoteMap.values id)
  let notifyRemote := mergeResults.filter fun result =>
    decide (0 < result.rejected.length)
  let updateLocal := mergeResults.filter fun result =>
    decide (0 < result.changed.length)
  let deleted := mergeGrowSet localMap.deleted remoteMap.deleted
  let localOnlyValues := localOnlyIds.filterMap fun id =>
    (jsLookup localMap.values id).map fun e => (id, e)
  let remoteOnlyValues := remoteOnlyIds.filterMap fun id =>
    (jsLookup remoteMap.values id).map fun e => (id, e)
  let sharedValues := mergeResults.filterMap fun result =>
    result.resolved.map fun e => (e.id, e)
  { resolved :=
      { deleted := deleted.resolved
        values := localOnlyValues ++ remoteOnlyValues ++ sharedValues }
    localPush :=
      { values := remoteOnlyIds ++
          (updateLocal.filterMap fun result => result.resolved.map fun e => e.id)
        deleted := deleted.remoteOnly }
    remotePush :=
      { values := localOnlyIds ++
          (notifyRemote.filterMap fun result => result.resolved.map fun e => e.id)
        deleted := deleted.localOnly } }

/-- Well-formedness of a `ConsistentMap` as the clients build them: the
dictionary keys are distinct and every envelope is stored under its own
`id` field. -/
def WFMap {K V : Type} (m : ConsistentMap K V) : Prop :=
  (m.values.map Prod.fst).Nodup ∧ ∀ p ∈ m.values, p.2.id = p.1

theorem WFMap.lookup_id {K V : Type} {m : ConsistentMap K V} (h : WFMap m) {id : String}
    {e : LWWEnv K V} (he : jsLookup m.values id = some e) : e.id = id :=
  h.2 (id, e) (jsLookup_eq_some_mem he)

theorem mem_keys_filterMap_lookup {α : Type} {l : List String} {vs : List (String × α)}
    (hl : ∀ i ∈ l, i ∈ vs.map Prod.fst) (id : String) :
    (id ∈ (l.filterMap fun i => (jsLookup vs i).map fun e => (i, e)).map Prod.fst) ↔
      id ∈ l := by
  simp only [List.mem_map, List.mem_filterMap]
  constructor
  · rintro ⟨p, ⟨i, hi, hp⟩, hfst⟩
    obtain ⟨e, he, hpe⟩ := Option.map_eq_some'.mp hp
    subst hpe
    exact hfst ▸ hi
  · intro h
    obtain ⟨e, he⟩ := jsLookup_isSome_of_mem (hl id h)
    exact ⟨(id, e), ⟨id, h, by simp [he]⟩, rfl⟩

theorem mem_keys_shared {K V : Type} {S : List String} {f : String → LWWMergeResult K V}
    (hf : ∀ sid ∈ S, ∃ env, (f sid).resolved = some env ∧ env.id = sid) (id : String) :
    (id ∈ (((S.map f).filterMap fun r => r.resolved.map fun e => (e.id, e)).map
      Prod.fst)) ↔ id ∈ S := by
  rw [List.filterMap_map]
  simp only [List.mem_map, List.mem_filterMap, Function.comp]
  constructor
  · rintro ⟨p, ⟨sid, hsid, hp⟩, hfst⟩
    obtain ⟨e, he, hpe⟩ := Option.map_eq_some'.mp hp
    subst hpe
    obtain ⟨env, henv, hid⟩ := hf sid hsid
    rw [henv] at he
    cases he
    simp only at hfst
    have h1 : id = sid := hfst.symm.trans hid
    rw [h1]
    exact hsid
  · intro h
    obtain ⟨env, henv, hid⟩ := hf id h
    exact ⟨(env.id, env), ⟨id, h, by simp [henv]⟩, hid⟩

theorem mem_pushIds_shared {K V : Type} {S : List String} {f : String → LWWMergeResult K V}
    (hf : ∀ sid ∈ S, ∃ env, (f sid).resolved = some env ∧ env.id = sid)
    (p : LWWMergeResult K V → Bool) (id : String) :
    (id ∈ ((S.map f).filter p).filterMap fun r => r.resolved.map fun e => e.id) ↔
      id ∈ S ∧ p (f id) = true := by
  simp only [List.mem_filterMap, List.mem_filter, List.mem_map]
  constructor
  · rintro ⟨r, ⟨⟨sid, hsid, rfl⟩, hp⟩, hr⟩
    obtain ⟨env, henv, hid⟩ := hf sid hsid
    rw [henv] at hr
    simp only [Option.map_some', Option.some_inj] at hr
    have hsi : sid = id := hid ▸ hr
    subst hsi
    exact ⟨hsid, hp⟩
  · rintro ⟨hid, hp⟩
    obtain ⟨env, henv, hide⟩ := hf id hid
    exact ⟨f id, ⟨⟨id, hid, rfl⟩, hp⟩, by simp [henv, hide]⟩

theorem mem_mergeGrowSet_resolved (x y : List String) (id : String) :
    id ∈ (mergeGrowSet x y).resolved ↔ id ∈ x ∨ id ∈ y := by
  by_cases h : id ∈ x <;> simp [mergeGrowSet, h]

/-- For a shared id of two well-formed maps, the per-id `mergeLWW` resolves
to an envelope carrying that id. -/
theorem mergeMap_shared_resolved {K V : Type} [DecidableEq K] [DecidableEq V]
    (keys : List K) {a b : ConsistentMap K V} (ha : WFMap a) {sid : String}
    (hla : sid ∈ a.values.map Prod.fst) (hlb : sid ∈ b.values.map Prod.fst) :
    ∃ env : LWWEnv K V,
      (mergeLWW keys (jsLookup a.values sid) (jsLookup b.values sid)).resolved = some env ∧
        env.id = sid := by
  obtain ⟨x, hx⟩ := jsLookup_isSome_of_mem hla
  obtain ⟨y, hy⟩ := jsLookup_isSome_of_mem hlb
  rw [hx, hy]
  refine ⟨_, rfl, ?_⟩
  show x.id = sid
  exact ha.lookup_id hx

/-- C1 counterexample input: the local replica holds a live envelope for
`incident1`; the remote side holds a tombstone for the same id. -/
def c1LocalMap : ConsistentMap Unit String :=
  ⟨[], [("incident1", ⟨"incident1", fun _ => "Expansion", fun _ => ⟨0, "LOCAL", []⟩⟩)]⟩

/-- C1 counterexample input: remote map carrying only the tombstone. -/
def c1RemoteMap : ConsistentMap Unit String := ⟨["incident1"], []⟩

/-- C1 is false on the code: merging a local map whose `values` hold
`incident1` with a remote map whose `deleted` list holds `incident1`
produces a result whose `resolved.deleted` contains `incident1` while
`incident1` is still among the keys of `resolved.values` — `mergeMap`
never filters tombstoned ids out of the resolved values. -/
theorem c1_counterexample :
    "incident1" ∈ (mergeMap [()] c1LocalMap c1RemoteMap).resolved.deleted ∧
      "incident1" ∈ (mergeMap [()] c1LocalMap c1RemoteMap).resolved.values.map Prod.fst := by
  decide

/-- C1 (amended): `mergeMap` applies no tombstone filtering to
`resolved.values`: for well-formed maps the key set of `resolved.values`
is exactly the union of the two input key sets, so an id listed in
`resolved.deleted` is absent from `resolved.values` if and only if it is
absent from both inputs' values. -/
theorem c1_resolved_values_unfiltered {K V : Type} [DecidableEq K] [DecidableEq V]
    (keys : List K) (a b : ConsistentMap K V) (ha : WFMap a) (hb : WFMap b)
    (id : String) :
    id ∈ (mergeMap keys a b).resolved.values.map Prod.fst ↔
      id ∈ a.values.map Prod.fst ∨ id ∈ b.values.map Prod.fst := by
  have hLO : ∀ i ∈ (a.values.map Prod.fst).filter
      (fun i => ! (b.values.map Prod.fst).contains i), i ∈ a.values.map Prod.fst :=
    fun i hi => (List.mem_filter.mp hi).1
  have hRO : ∀ i ∈ (b.values.map Prod.fst).filter
      (fun i => ! (a.values.map Prod.fst).contains i), i ∈ b.values.map Prod.fst :=
    fun i hi => (List.mem_filter.mp hi).1
  have hS : ∀ sid ∈ (a.values.map Prod.fst).filter
      (fun i => (b.values.map Prod.fst).contains i),
      ∃ env : LWWEnv K V,
        (mergeLWW keys (jsLookup a.values sid) (jsLookup b.values sid)).resolved = some env ∧
          env.id = sid := by
    intro sid hsid
    obtain ⟨h1, h2⟩ := List.mem_filter.mp hsid
    exact mergeMap_shared_resolved keys ha h1 (by simpa using h2)
  simp only [mergeMap]
  rw [List.map_append, List.map_append, List.mem_append, List.mem_append,
    mem_keys_filterMap_lookup hLO, mem_keys_filterMap_lookup hRO, mem_keys_shared hS]
  by_cases h1 : id ∈ a.values.map Prod.fst <;>
    by_cases h2 : id ∈ b.values.map Prod.fst <;> simp [h1, h2]

/-- Witness for C1 (amended) at the counterexample maps and id
`incident1`. -/
theorem c1_resolved_values_unfiltered_witness :
    WFMap c1LocalMap ∧ WFMap c1RemoteMap ∧
      ("incident1" ∈ (mergeMap [()] c1LocalMap c1RemoteMap).resolved.values.map Prod.fst ↔
        "incident1" ∈ c1LocalMap.values.map Prod.fst ∨
          "incident1" ∈ c1RemoteMap.values.map Prod.fst) :=
  ⟨⟨by decide, by decide⟩, ⟨by decide, by decide⟩,
    c1_resolved_values_unfiltered [()] c1LocalMap c1RemoteMap
      ⟨by decide, by decide⟩ ⟨by decide, by decide⟩ "incident1"⟩

/-- C2: the push directions of `mergeMap`. `remote.values` holds exactly
the ids present only in the local map together with the shared ids whose
per-id `mergeLWW` produced a non-empty `rejected` list; `local.values`
holds exactly the ids present only in the remote map together with the
shared ids whose per-id `mergeLWW` produced a non-empty `changed` list. -/
theorem c2_push_directions {K V : Type} [DecidableEq K] [DecidableEq V]
    (keys : List K) (a b : ConsistentMap K V) (ha : WFMap a) (hb : WFMap b)
    (id : String) :
    (id ∈ (mergeMap keys a b).remotePush.values ↔
      (id ∈ a.values.map Prod.fst ∧ id ∉ b.values.map Prod.fst) ∨
        (id ∈ a.values.map Prod.fst ∧ id ∈ b.values.map Prod.fst ∧
          (mergeLWW keys (jsLookup a.values id) (jsLookup b.values id)).rejected ≠ [])) ∧
    (id ∈ (mergeMap keys a b).localPush.values ↔
      (id ∈ b.values.map Prod.fst ∧ id ∉ a.values.map Prod.fst) ∨
        (id ∈ a.values.map Prod.fst ∧ id ∈ b.values.map Prod.fst ∧
          (mergeLWW keys (jsLookup a.values id) (jsLookup b.values id)).changed ≠ [])) := by
  have hS : ∀ sid ∈ (a.values.map Prod.fst).filter
      (fun i => (b.values.map Prod.fst).contains i),
      ∃ env : LWWEnv K V,
        (mergeLWW keys (jsLookup a.values sid) (jsLookup b.values sid)).resolved = some env ∧
          env.id = sid := by
    intro sid hsid
    obtain ⟨h1, h2⟩ := List.mem_filter.mp hsid
    exact mergeMap_shared_resolved keys ha h1 (by simpa using h2)
  constructor
  · simp only [mergeMap]
    rw [List.mem_append, mem_pushIds_shared hS]
    by_cases h1 : id ∈ a.values.map Prod.fst <;>
      by_cases h2 : id ∈ b.values.map Prod.fst <;>
        simp [h1, h2, List.length_pos]
  · simp only [mergeMap]
    rw [List.mem_append, mem_pushIds_shared hS]
    by_cases h1 : id ∈ a.values.map Prod.fst <;>
      by_cases h2 : id ∈ b.values.map Prod.fst <;>
        simp [h1, h2, List.length_pos]

/-- C2 witness inputs: a single shared id whose field ties on count with
different values, so the count tie is broken by the larger peer id; the
remote side wins, the merge marks the key `changed`, and the local side
must be updated. -/
def c2MapA : ConsistentMap Unit String :=
  ⟨[], [("incident1", ⟨"incident1", fun _ => "Local Value", fun _ => ⟨0, "AAA", []⟩⟩)]⟩

/-- C2 witness input: the remote replica of the same id with the larger
peer id. -/
def c2MapB : ConsistentMap Unit String :=
  ⟨[], [("incident1", ⟨"incident1", fun _ => "Remote Value", fun _ => ⟨0, "ZZZ", []⟩⟩)]⟩

/-- Witness for C2 at concrete maps with one shared id. -/
theorem c2_push_directions_witness :
    WFMap c2MapA ∧ WFMap c2MapB ∧
      (("incident1" ∈ (mergeMap [()] c2MapA c2MapB).remotePush.values ↔
        ("incident1" ∈ c2MapA.values.map Prod.fst ∧
            "incident1" ∉ c2MapB.values.map Prod.fst) ∨
          ("incident1" ∈ c2MapA.values.map Prod.fst ∧
            "incident1" ∈ c2MapB.values.map Prod.fst ∧
            (mergeLWW [()] (jsLookup c2MapA.values "incident1")
              (jsLookup c2MapB.values "incident1")).rejected ≠ [])) ∧
      ("incident1" ∈ (mergeMap [()] c2MapA c2MapB).localPush.values ↔
        ("incident1" ∈ c2MapB.values.map Prod.fst ∧
            "incident1" ∉ c2MapA.values.map Prod.fst) ∨
          ("incident1" ∈ c2MapA.values.map Prod.fst ∧
            "incident1" ∈ c2MapB.values.map Prod.fst ∧
            (mergeLWW [()] (jsLookup c2MapA.values "incident1")
              (jsLookup c2MapB.values "incident1")).changed ≠ []))) :=
  ⟨⟨by decide, by decide⟩, ⟨by decide, by decide⟩,
    c2_push_directions [()] c2MapA c2MapB ⟨by decide, by decide⟩
      ⟨by decide, by decide⟩ "incident1"⟩

/-- Lookup in the merged-shared slice of `mergeMap`: for ids outside the
shared set it misses, and for shared ids it returns the per-id resolved
envelope. -/
theorem jsLookup_sharedValues {K V : Type} {S : List String}
    {f : String → LWWMergeResult K V}
    (hf : ∀ sid ∈ S, ∃ env, (f sid).resolved = some env ∧ env.id = sid) (id : String) :
    jsLookup ((S.map f).filterMap fun r => r.resolved.map fun e => (e.id, e)) id =
      if id ∈ S then (f id).resolved else none := by
  induction S with
  | nil => simp [jsLookup]
  | cons s rest ih =>
    obtain ⟨env, henv, hid⟩ := hf s (List.mem_cons_self _ _)
    have ih := ih fun x hx => hf x (List.mem_cons_of_mem _ hx)
    simp only [List.map_cons, List.filterMap_cons, henv, Option.map_some', hid,
      jsLookup, ih]
    by_cases hm : id ∈ rest
    · obtain ⟨env2, henv2, _⟩ := hf id (List.mem_cons_of_mem _ hm)
      simp [hm, henv2]
    · by_cases hse : s = id
      · subst hse
        simp [hm, henv]
      · simp [hm, hse, Ne.symm hse, List.mem_cons]

theorem strLtB_asymm {a : List Char} :
    ∀ {b : List Char}, strLtB a b = true → strLtB b a = false := by
  induction a with
  | nil =>
    intro b h
    cases b with
    | nil => simp [strLtB] at h
    | cons c cs => simp [strLtB]
  | cons x xs ih =>
    intro b h
    cases b with
    | nil => simp [strLtB] at h
    | cons y ys =>
      simp only [strLtB] at h ⊢
      by_cases h1 : x.toNat < y.toNat
      · simp [h1, Nat.lt_asymm h1]
      · by_cases h2 : y.toNat < x.toNat
        · rw [if_neg h1, if_pos h2] at h
          exact absurd h (by simp)
        · rw [if_neg h1, if_neg h2] at h
          rw [if_neg h2, if_neg h1]
          exact ih h

theorem strLtB_total_of_ne {a : List Char} :
    ∀ {b : List Char}, a ≠ b → strLtB a b = true ∨ strLtB b a = true := by
  induction a with
  | nil =>
    intro b hne
    cases b with
    | nil => exact absurd rfl hne
    | cons c cs =>
      left
      simp [strLtB]
  | cons x xs ih =>
    intro b hne
    cases b with
    | nil =>
      right
      simp [strLtB]
    | cons y ys =>
      by_cases h1 : x.toNat < y.toNat
      · left
        simp [strLtB, h1]
      · by_cases h2 : y.toNat < x.toNat
        · right
          simp [strLtB, h2]
        · have hxy : x = y :=
            Char.ext (UInt32.ext (Nat.le_antisymm (Nat.le_of_not_lt h2)
              (Nat.le_of_not_lt h1)))
          subst hxy
          have htl : xs ≠ ys := fun e => hne (by rw [e])
          rcases ih htl with hl | hl
          · left
            simp [strLtB, hl]
          · right
            simp [strLtB, hl]

theorem peerLt_asymm {a b : String} (h : peerLt a b = true) : peerLt b a = false :=
  strLtB_asymm h

theorem peerLt_total_of_ne {a b : String} (h : a ≠ b) :
    peerLt a b = true ∨ peerLt b a = true := by
  refine strLtB_total_of_ne ?_
  intro hd
  apply h
  cases a with
  | mk la =>
    cases b with
    | mk lb => exact congrArg String.mk hd

/-- The resolved envelope of a both-sides-present `mergeLWW` is symmetric
in its operands provided the two envelopes carry the same id and every
count tie is coherent: wherever the counts tie, either the two sides
agree on value and field metadata, or they hold different values written
by different peers — the lexicographically larger peer then wins from
either operand order. -/
theorem mergeEnv_comm {K V : Type} [DecidableEq K] [DecidableEq V] (keys kopp : List K)
    (x y : LWWEnv K V) (hid : x.id = y.id)
    (hk : ∀ k : K, (x.consistency k).count = (y.consistency k).count →
      (x.value k = y.value k → x.consistency k = y.consistency k) ∧
      (x.value k ≠ y.value k →
        (x.consistency k).peer ≠ (y.consistency k).peer)) :
    (mergeLWW keys (some x) (some y)).resolved =
      (mergeLWW kopp (some y) (some x)).resolved := by
  simp only [mergeLWW, Option.some_inj]
  refine LWWEnv.ext hid ?_ ?_
  · funext k
    show (if lwwLocalWins x y k = true then x.value k else y.value k) =
      (if lwwLocalWins y x k = true then y.value k else x.value k)
    rcases Nat.lt_trichotomy ((x.consistency k).count) ((y.consistency k).count)
      with h | h | h
    · have w1 : lwwLocalWins x y k = false := by
        simp [lwwLocalWins, h, Nat.lt_asymm h]
      have w2 : lwwLocalWins y x k = true := by
        simp [lwwLocalWins, h]
      simp [w1, w2]
    · by_cases hv : x.value k = y.value k
      · rw [hv]
        simp
      · have hp := (hk k h).2 hv
        rcases peerLt_total_of_ne hp with hlt | hlt
        · have w1 : lwwLocalWins x y k = false := by
            simp [lwwLocalWins, h, hv, hlt]
          have w2 : lwwLocalWins y x k = true := by
            simp [lwwLocalWins, h, Ne.symm hv, peerLt_asymm hlt]
          simp [w1, w2]
        · have w1 : lwwLocalWins x y k = true := by
            simp [lwwLocalWins, h, hv, peerLt_asymm hlt]
          have w2 : lwwLocalWins y x k = false := by
            simp [lwwLocalWins, h, Ne.symm hv, hlt]
          simp [w1, w2]
    · have w1 : lwwLocalWins x y k = true := by
        simp [lwwLocalWins, h]
      have w2 : lwwLocalWins y x k = false := by
        simp [lwwLocalWins, h, Nat.lt_asymm h]
      simp [w1, w2]
  · funext k
    show (if lwwLocalWins x y k = true then x.consistency k else y.consistency k) =
      (if lwwLocalWins y x k = true then y.consistency k else x.consistency k)
    rcases Nat.lt_trichotomy ((x.consistency k).count) ((y.consistency k).count)
      with h | h | h
    · have w1 : lwwLocalWins x y k = false := by
        simp [lwwLocalWins, h, Nat.lt_asymm h]
      have w2 : lwwLocalWins y x k = true := by
        simp [lwwLocalWins, h]
      simp [w1, w2]
    · by_cases hv : x.value k = y.value k
      · have hc := (hk k h).1 hv
        rw [hc]
        simp
      · have hp := (hk k h).2 hv
        rcases peerLt_total_of_ne hp with hlt | hlt
        · have w1 : lwwLocalWins x y k = false := by
            simp [lwwLocalWins, h, hv, hlt]
          have w2 : lwwLocalWins y x k = true := by
            simp [lwwLocalWins, h, Ne.symm hv, peerLt_asymm hlt]
          simp [w1, w2]
        · have w1 : lwwLocalWins x y k = true := by
            simp [lwwLocalWins, h, hv, peerLt_asymm hlt]
          have w2 : lwwLocalWins y x k = false := by
            simp [lwwLocalWins, h, Ne.symm hv, hlt]
          simp [w1, w2]
    · have w1 : lwwLocalWins x y k = true := by
        simp [lwwLocalWins, h]
      have w2 : lwwLocalWins y x k = false := by
        simp [lwwLocalWins, h, Nat.lt_asymm h]
      simp [w1, w2]

/-- Equivalence of resolved map states: the same set of tombstoned ids and
the same envelope found under every id (JavaScript objects compare by key
lookup, the tombstone arrays by membership). -/
def ResolvedEquiv {K V : Type} (x y : ConsistentMap K V) : Prop :=
  (∀ id, id ∈ x.deleted ↔ id ∈ y.deleted) ∧
    ∀ id, jsLookup x.values id = jsLookup y.values id

/-- Every count tie between the two replicas is coherent: whenever both
store an envelope under the same id and a key carries equal counts on
both sides, either the two sides agree on the value and the field
metadata there, or their values differ and so do the peer ids of their
most recent writers (so the tie is broken by the larger peer id from
either operand order). -/
def TieCoherent {K V : Type} (a b : ConsistentMap K V) : Prop :=
  ∀ p ∈ a.values, ∀ q ∈ b.values, p.1 = q.1 →
    ∀ k : K, ((p.2 : LWWEnv K V).consistency k).count = ((q.2).consistency k).count →
      ((p.2).value k = (q.2).value k → (p.2).consistency k = (q.2).consistency k) ∧
      ((p.2).value k ≠ (q.2).value k →
        ((p.2).consistency k).peer ≠ ((q.2).consistency k).peer)

/-- C3 counterexample input: a replica of `incident1` whose field has
count `0`, value `Expansion` and writer `AAA`. -/
def c3MapA : ConsistentMap Unit String :=
  ⟨[], [("incident1", ⟨"incident1", fun _ => "Expansion", fun _ => ⟨0, "AAA", []⟩⟩)]⟩

/-- C3 counterexample input: the same id with the same count and value but
writer `ZZZ`. -/
def c3MapB : ConsistentMap Unit String :=
  ⟨[], [("incident1", ⟨"incident1", fun _ => "Expansion", fun _ => ⟨0, "ZZZ", []⟩⟩)]⟩

/-- C3 is false on the merge rules: on a count tie with deep-equal values
the local operand wins, so swapping the operands swaps which side's field
metadata survives; the two resolved envelopes for `incident1` carry
writers `AAA` and `ZZZ` respectively, so the resolved outputs differ. -/
theorem c3_counterexample :
    ¬ ResolvedEquiv (mergeMap [()] c3MapA c3MapB).resolved
        (mergeMap [()] c3MapB c3MapA).resolved := by
  intro h
  have h2 := congrArg (Option.map fun e => (e.consistency ()).peer) (h.2 "incident1")
  have h3 : (some "AAA" : Option String) = some "ZZZ" := h2
  exact absurd h3 (by decide)

/-- C3 (amended): the resolved output of `mergeMap` commutes for
well-formed maps whose count ties are coherent — wherever a shared id's
counts tie at a key, the two sides either agree on value and field
metadata, or hold different values written by different peers (a tie the
larger peer id wins from either operand order, as in the repo test `tie
goes to higher peer value`). Swapping the operands then yields an
equivalent resolved state: the same tombstone set and the same envelope
under every id. The excluded corners are real: equal-count equal-value
states with divergent metadata (the counterexample) keep the local side's
metadata, which depends on the operand order. -/
theorem c3_resolved_commutative {K V : Type} [DecidableEq K] [DecidableEq V]
    (keys : List K) (a b : ConsistentMap K V) (ha : WFMap a) (hb : WFMap b)
    (hTie : TieCoherent a b) :
    ResolvedEquiv (mergeMap keys a b).resolved (mergeMap keys b a).resolved := by
  have hSab : ∀ sid ∈ (a.values.map Prod.fst).filter
      (fun i => (b.values.map Prod.fst).contains i),
      ∃ env : LWWEnv K V,
        (mergeLWW keys (jsLookup a.values sid) (jsLookup b.values sid)).resolved = some env ∧
          env.id = sid := by
    intro sid hsid
    obtain ⟨h1, h2⟩ := List.mem_filter.mp hsid
    exact mergeMap_shared_resolved keys ha h1 (by simpa using h2)
  have hSba : ∀ sid ∈ (b.values.map Prod.fst).filter
      (fun i => (a.values.map Prod.fst).contains i),
      ∃ env : LWWEnv K V,
        (mergeLWW keys (jsLookup b.values sid) (jsLookup a.values sid)).resolved = some env ∧
          env.id = sid := by
    intro sid hsid
    obtain ⟨h1, h2⟩ := List.mem_filter.mp hsid
    exact mergeMap_shared_resolved keys hb h1 (by simpa using h2)
  constructor
  · intro id
    simp only [mergeMap]
    rw [mem_mergeGrowSet_resolved, mem_mergeGrowSet_resolved]
    tauto
  · intro id
    have hLa : ∀ s ∈ (a.values.map Prod.fst).filter
        (fun i => ! (b.values.map Prod.fst).contains i),
        (jsLookup a.values s).isSome := fun s hs =>
      Option.isSome_iff_exists.mpr (jsLookup_isSome_of_mem (List.mem_filter.mp hs).1)
    have hRb : ∀ s ∈ (b.values.map Prod.fst).filter
        (fun i => ! (a.values.map Prod.fst).contains i),
        (jsLookup b.values s).isSome := fun s hs =>
      Option.isSome_iff_exists.mpr (jsLookup_isSome_of_mem (List.mem_filter.mp hs).1)
    simp only [mergeMap]
    simp only [jsLookup_append, jsLookup_sharedValues hSab, jsLookup_sharedValues hSba,
      jsLookup_filterMap_key hLa, jsLookup_filterMap_key hRb]
    by_cases h1 : id ∈ a.values.map Prod.fst <;>
      by_cases h2 : id ∈ b.values.map Prod.fst
    · obtain ⟨x, hx⟩ := jsLookup_isSome_of_mem h1
      obtain ⟨y, hy⟩ := jsLookup_isSome_of_mem h2
      have hxy : x.id = y.id := (ha.lookup_id hx).trans (hb.lookup_id hy).symm
      have hcomm := mergeEnv_comm keys keys x y hxy fun k hc =>
        hTie (id, x) (jsLookup_eq_some_mem hx) (id, y) (jsLookup_eq_some_mem hy) rfl k hc
      simp [h1, h2, hx, hy, hcomm]
    · simp [h1, h2]
      cases jsLookup a.values id <;> simp
    · simp [h1, h2]
      cases jsLookup b.values id <;> simp
    · simp [h1, h2]

/-- C3 witness local replica (spec Scenario C): `incident1` edited to `b`
by peer `AAA`, count 1, alongside an unrelated tombstone. -/
def c3WMapA : ConsistentMap Unit String :=
  ⟨["legacy"],
    [("incident1", ⟨"incident1", fun _ => "b", fun _ => ⟨1, "AAA", [("a", "AAA")]⟩⟩)]⟩

/-- C3 witness remote replica: the concurrent edit of `incident1` to `c`
by the lexicographically larger peer `ZZZ`, also at count 1. -/
def c3WMapB : ConsistentMap Unit String :=
  ⟨[], [("incident1", ⟨"incident1", fun _ => "c", fun _ => ⟨1, "ZZZ", [("a", "ZZZ")]⟩⟩)]⟩

/-- Witness for C3 (amended) at a genuine peer-broken count tie between
two distinct replicas: the resolved state commutes and picks the larger
peer's value `c` in both operand orders. -/
theorem c3_resolved_commutative_witness :
    WFMap c3WMapA ∧ WFMap c3WMapB ∧ TieCoherent c3WMapA c3WMapB ∧
      ((jsLookup (mergeMap [()] c3WMapA c3WMapB).resolved.values "incident1").map
        (fun e => e.value ()) = some "c" ∧
      (jsLookup (mergeMap [()] c3WMapB c3WMapA).resolved.values "incident1").map
        (fun e => e.value ()) = some "c") ∧
      ResolvedEquiv (mergeMap [()] c3WMapA c3WMapB).resolved
        (mergeMap [()] c3WMapB c3WMapA).resolved :=
  ⟨⟨by decide, by decide⟩, ⟨by decide, by decide⟩, by unfold TieCoherent ; decide,
    ⟨rfl, rfl⟩,
    c3_resolved_commutative [()] c3WMapA c3WMapB ⟨by decide, by decide⟩
      ⟨by decide, by decide⟩ (by unfold TieCoherent ; decide)⟩

/-- A frame sender tag (`WebSocketSender`): the server itself or a named
client. -/
inductive Sender
  | server
  | client (name : String) (id : String)
deriving DecidableEq

/-- One change record inside a revision history entry (`Change` in the
shared revision module): the edited property and its two values. -/
structure Change (V : Type) where
  property : String
  old : V
  new : V
deriving DecidableEq

/-- One entry of a revision history: author, date and the change list. The
date is embedded as a number. -/
structure HistoryEntry (V : Type) where
  user : Sender
  date : Nat
  changes : List (Change V)
deriving DecidableEq

/-- A revision counter with its author and history (`Revision`). -/
structure Revision (V : Type) where
  count : Nat
  user : Sender
  history : List (HistoryEntry V)
deriving DecidableEq

/-- The two skills-attempt kinds. -/
inductive SkillsType
  | programming
  | driver
deriving DecidableEq

/-- A match reference carried by an incident (`IncidentMatch`): a
league-match reference `{division, name, id}` or a skills-attempt
reference `{skillsType, attempt}`. -/
inductive IncidentMatch
  | matchRef (division : Nat) (name : String) (id : Nat)
  | skills (skillsType : SkillsType) (attempt : Nat)
deriving DecidableEq

/-- The server-side incident record. The `match` field of the source is
named `matchRef` because `match` is a Lean keyword; change values inside
the revision are embedded as strings (the server never inspects them). -/
structure Incident where
  id : String
  event : String
  team : String
  matchRef : Option IncidentMatch
  outcome : String
  rules : List String
  notes : String
  time : Nat
  revision : Option (Revision String)
deriving DecidableEq

/-- A peer as the socket layer sees it (`ShareUser`). -/
structure ShareUser where
  name : String
  id : String
deriving DecidableEq

/-- A registered socket session (`SessionClient`); the socket object is
embedded as a numeric tag. -/
structure SessionClient where
  user : ShareUser
  socket : Nat
  ip : String
  active : Bool
deriving DecidableEq

/-- The authenticated caller identity the gateway attaches to requests
(`X-Referee-User-Name` / `X-Referee-User-Key`). -/
structure User where
  name : String
  key : String
deriving DecidableEq

/-- The storage and session state of the per-event durable object
`EventIncidents`. The storage cells touched by the incident paths are
embedded explicitly: the per-id incident blobs, the `incidents` id list,
the `deleted_incidents` set (an insertion-ordered list), the scratchpad
id set with its blobs (stored opaquely), and the registered socket
clients. -/
structure ServerState where
  store : String → Option Incident
  incidents : List String
  deletedIncidents : List String
  scratchpadIds : List String
  scratchpadStore : String → Option String
  clients : List SessionClient

/-- `addIncident` (incidents.ts:127-139): store the incident blob under
its id and append the id to the `incidents` list when absent. -/
def addIncident (s : ServerState) (incident : Incident) : ServerState :=
  { s with
    store := fun k => if k = incident.id then some incident else s.store k
    incidents :=
      if incident.id ∈ s.incidents then s.incidents
      else s.incidents ++ [incident.id] }

/-- `editIncident` (incidents.ts:141-154): overwrite the blob only when
the id is currently stored; report whether the edit happened. -/
def editIncident (s : ServerState) (incident : Incident) : ServerState × Bool :=
  match s.store incident.id with
  | none => (s, false)
  | some _ =>
    ({ s with store := fun k => if k = incident.id then some incident else s.store k },
      true)

/-- `deleteIncident` (incidents.ts:156-171): drop the id from the
`incidents` list, insert it into the tombstone set when absent, and
report whether the list shrank. -/
def deleteIncident (s : ServerState) (id : String) : ServerState × Bool :=
  let filtered := s.incidents.filter fun value => value != id
  let s1 := { s with incidents := filtered }
  let s2 :=
    if id ∈ s1.deletedIncidents then s1
    else { s1 with deletedIncidents := s1.deletedIncidents ++ [id] }
  (s2, decide (s.incidents.length ≠ filtered.length))

/-- `setScratchpad` (incidents.ts:97-107): record the id in the
scratchpad id set and store the payload. -/
def setScratchpad (s : ServerState) (id : String) (scratchpad : String) : ServerState :=
  { s with
    scratchpadIds :=
      if id ∈ s.scratchpadIds then s.scratchpadIds else s.scratchpadIds ++ [id]
    scratchpadStore := fun k => if k = id then some scratchpad else s.scratchpadStore k }

/-- The JSON response envelope, restricted to the fields the incident
handlers populate. -/
structure ApiResponse where
  success : Bool
  reason : Option String
  details : Option String
deriving DecidableEq

/-- A `{success: true}` response (the `data` payload is not modelled). -/
def okResponse : ApiResponse := ⟨true, none, none⟩

/-- A `{success: false, reason: "bad_request", details}` response, the
only refusal shape the incident handlers produce. -/
def refuse (details : String) : ApiResponse := ⟨false, some "bad_request", some details⟩

/-- The socket frame types the incident paths produce or consume. The
`server_user_*` and `server_share_info` frames also carry invitation
lists read from the external KV store; those live outside the durable
object state and are not embedded. -/
inductive WsMessage
  | add_incident (incident : Incident)
  | update_incident (incident : Incident)
  | remove_incident (id : String)
  | scratchpad_update (id : String) (scratchpad : String)
  | message (message : String)
deriving DecidableEq

/-- A broadcast emitted by the durable object: the frame and its sender
tag. -/
structure Broadcast where
  message : WsMessage
  sender : Sender
deriving DecidableEq

/-- The sender tag each HTTP handler computes: the registered socket
client whose user id equals the caller's key, else the server itself. -/
def requestSender (s : ServerState) (user : User) : Sender :=
  match s.clients.find? fun v => v.user.id == user.key with
  | some c => Sender.client c.user.name c.user.id
  | none => Sender.server

/-- `handleAddIncident` (incidents.ts:368-407), the `PUT /incident`
handler: reject a missing body, refuse tombstoned ids, otherwise store
and broadcast `add_incident`. Returns the new state, the response, and
the broadcasts emitted. -/
def handleAddIncident (s : ServerState) (user : User) (body : Option Incident) :
    ServerState × ApiResponse × List Broadcast :=
  let sender := requestSender s user
  match body with
  | none => (s, refuse "Must specify a valid incident.", [])
  | some incident =>
    if incident.id ∈ s.deletedIncidents then
      (s, refuse "That incident has been deleted.", [])
    else
      (addIncident s incident, okResponse,
        [{ message := WsMessage.add_incident incident, sender := sender }])

/-- The expression `currentIncident?.revision?.count ?? 0` of
`handleEditIncident` (incidents.ts:441). -/
def currentRevisionCount (currentIncident : Option Incident) : Nat :=
  match currentIncident with
  | some c =>
    match c.revision with
    | some r => r.count
    | none => 0
  | none => 0

/-- `handleEditIncident` (incidents.ts:409-474), the `PATCH /incident`
handler: reject a missing body, refuse tombstoned ids, reject a body
revision whose count is strictly below the stored count, default a
missing body revision to `{count: 1, user: sender, history: []}`, then
store (failing when the id is unknown) and broadcast `update_incident`. -/
def handleEditIncident (s : ServerState) (user : User) (body : Option Incident) :
    ServerState × ApiResponse × List Broadcast :=
  match body with
  | none => (s, refuse "Must specify a valid incident to edit.", [])
  | some incident =>
    if incident.id ∈ s.deletedIncidents then
      (s, refuse "That incident has been deleted.", [])
    else
      let sender := requestSender s user
      let currentIncident := s.store incident.id
      let currentRevision := currentRevisionCount currentIncident
      let write := fun (inc : Incident) =>
        match editIncident s inc with
        | (s2, true) =>
          (s2, okResponse, [{ message := WsMessage.update_incident inc, sender := sender }])
        | (s2, false) => (s2, refuse "Could not edit incident with that ID", [])
      match incident.revision with
      | some rev =>
        if rev.count < currentRevision then
          (s, refuse "The incident has been edited more recently.", [])
        else write incident
      | none =>
        write { incident with revision := some { count := 1, user := sender, history := [] } }

/-- `handleDeleteIncident` (incidents.ts:476-515), the `DELETE /incident`
handler: reject a missing `id` parameter; run `deleteIncident` (which
always tombstones) and broadcast `remove_incident` only when the id was
actually removed from the list, otherwise answer with a refusal. -/
def handleDeleteIncident (s : ServerState) (user : User) (idParam : Option String) :
    ServerState × ApiResponse × List Broadcast :=
  let sender := requestSender s user
  match idParam with
  | none => (s, refuse "Must specify `id` of incident to delete", [])
  | some id =>
    match deleteIncident s id with
    | (s2, true) =>
      (s2, okResponse, [{ message := WsMessage.remove_incident id, sender := sender }])
    | (s2, false) => (s2, refuse "Could not find incident with that ID", [])

/-- The inbound frame dispatch registered by `handleSession`
(incidents.ts:555-616): each peer message is applied to storage and
rebroadcast with the client as sender; an inactive client's frame is
dropped (its socket is closed). The `add_incident` branch performs no
tombstone check. -/
def handleSocketMessage (s : ServerState) (client : SessionClient) (data : WsMessage) :
    ServerState × List Broadcast :=
  if ! client.active then (s, [])
  else
    match data with
    | WsMessage.add_incident incident =>
      (addIncident s incident,
        [{ message := WsMessage.add_incident incident,
           sender := Sender.client client.user.name client.user.id }])
    | WsMessage.update_incident incident =>
      ((editIncident s incident).1,
        [{ message := WsMessage.update_incident incident,
           sender := Sender.client client.user.name client.user.id }])
    | WsMessage.remove_incident id =>
      ((deleteIncident s id).1,
        [{ message := WsMessage.remove_incident id,
           sender := Sender.client client.user.name client.user.id }])
    | WsMessage.scratchpad_update id scratchpad =>
      (setScratchpad s id scratchpad,
        [{ message := WsMessage.scratchpad_update id scratchpad,
           sender := Sender.client client.user.name client.user.id }])
    | WsMessage.message m =>
      (s, [{ message := WsMessage.message m,
             sender := Sender.client client.user.name client.user.id }])

/-- `getActiveUsers` (incidents.ts:300-304). -/
def getActiveUsers (clients : List SessionClient) : List ShareUser :=
  (clients.filter fun client => client.active).map fun client => client.user

/-- The observable outbound actions of a socket join, in emission order. -/
inductive JoinEvent
  | broadcastUserAdd (user : ShareUser) (activeUsers : List ShareUser)
  | sendShareInfo (activeUsers : List ShareUser) (incidents : List String)
      (deleted : List String)
deriving DecidableEq

/-- The join portion of `handleSession` (incidents.ts:545-552 and
617-635): register the new socket after evicting every client with the
same user id, broadcast `server_user_add`, then send the
`server_share_info` snapshot to the new socket only. Both events compute
their active-user lists after the eviction; the snapshot's storage-backed
payload is represented by the incident and tombstone id lists. -/
def handleSessionJoin (s : ServerState) (socket : Nat) (ip : String) (user : ShareUser) :
    ServerState × List JoinEvent :=
  let client : SessionClient := { user := user, socket := socket, ip := ip, active := true }
  let clients1 := (s.clients.filter fun c => c.user.id != user.id) ++ [client]
  let s1 := { s with clients := clients1 }
  (s1,
    [JoinEvent.broadcastUserAdd user (getActiveUsers clients1),
      JoinEvent.sendShareInfo (getActiveUsers clients1) s1.incidents s1.deletedIncidents])

/-- C4: for an id in the server's deleted set, the HTTP `PUT /incident`
handler answers with an unsuccessful refusal, leaves the state unchanged
and broadcasts nothing, while an inbound socket `add_incident` frame with
the same id stores the incident (blob present, id listed) and broadcasts
`add_incident` without any tombstone check. -/
theorem c4_tombstoned_add_paths (s : ServerState) (user : User)
    (client : SessionClient) (incident : Incident)
    (hdel : incident.id ∈ s.deletedIncidents) (hact : client.active = true) :
    handleAddIncident s user (some incident) =
      (s, refuse "That incident has been deleted.", []) ∧
    (handleSocketMessage s client (WsMessage.add_incident incident)).1.store
      incident.id = some incident ∧
    incident.id ∈ (handleSocketMessage s client (WsMessage.add_incident incident)).1.incidents ∧
    (handleSocketMessage s client (WsMessage.add_incident incident)).2 =
      [{ message := WsMessage.add_incident incident,
         sender := Sender.client client.user.name client.user.id }] := by
  refine ⟨?_, ?_, ?_, ?_⟩
  · simp [handleAddIncident, hdel]
  · simp [handleSocketMessage, hact, addIncident]
  · by_cases hmem : incident.id ∈ s.incidents <;>
      simp [handleSocketMessage, hact, addIncident, hmem]
  · simp [handleSocketMessage, hact]

/-- C4 witness state: a server holding a tombstone for `incident1`. -/
def c4State : ServerState :=
  { store := fun _ => none
    incidents := []
    deletedIncidents := ["incident1"]
    scratchpadIds := []
    scratchpadStore := fun _ => none
    clients := [] }

/-- C4 witness session: an active socket client. -/
def c4Client : SessionClient :=
  { user := { name := "Referee", id := "peer1" }, socket := 0, ip := "ip", active := true }

/-- C4 witness incident: a re-add of the tombstoned id. -/
def c4Incident : Incident :=
  { id := "incident1", event := "RE-VRC-23-3690", team := "3796B", matchRef := none
    outcome := "General", rules := [], notes := "", time := 0, revision := none }

/-- Witness for C4 at a concrete tombstoned state. -/
theorem c4_tombstoned_add_paths_witness :
    c4Incident.id ∈ c4State.deletedIncidents ∧ c4Client.active = true ∧
      (handleAddIncident c4State { name := "Referee", key := "peer1" } (some c4Incident) =
        (c4State, refuse "That incident has been deleted.", []) ∧
      (handleSocketMessage c4State c4Client (WsMessage.add_incident c4Incident)).1.store
        c4Incident.id = some c4Incident ∧
      c4Incident.id ∈
        (handleSocketMessage c4State c4Client (WsMessage.add_incident c4Incident)).1.incidents ∧
      (handleSocketMessage c4State c4Client (WsMessage.add_incident c4Incident)).2 =
        [{ message := WsMessage.add_incident c4Incident,
           sender := Sender.client c4Client.user.name c4Client.user.id }]) :=
  ⟨by decide, rfl,
    c4_tombstoned_add_paths c4State { name := "Referee", key := "peer1" } c4Client
      c4Incident (by decide) rfl⟩

/-- The incident as `handleEditIncident` stores it when the body carried
no revision: the fresh revision `{count: 1, user: sender, history: []}`
is attached (incidents.ts:450-456). -/
def withFreshRevision (incident : Incident) (sender : Sender) : Incident :=
  { incident with revision := some { count := 1, user := sender, history := [] } }

/-- C5 counterexample stored incident: revision count 5. -/
def c5Stored : Incident :=
  { id := "incident1", event := "RE-VRC-23-3690", team := "3796B", matchRef := none
    outcome := "General", rules := [], notes := "", time := 0
    revision := some { count := 5, user := Sender.server, history := [] } }

/-- C5 counterexample patch: the same incident at revision count 3. -/
def c5Patch : Incident :=
  { c5Stored with revision := some { count := 3, user := Sender.server, history := [] } }

/-- C5 counterexample server state holding the stored incident. -/
def c5State : ServerState :=
  { store := fun k => if k = "incident1" then some c5Stored else none
    incidents := ["incident1"]
    deletedIncidents := []
    scratchpadIds := []
    scratchpadStore := fun _ => none
    clients := [] }

/-- C5 is wrong about the refusal shape: a stale `PATCH /incident` (body
revision count 3 against stored count 5) is rejected, but the response
reason is `bad_request` (with details "The incident has been edited more
recently."), not `stale`. -/
theorem c5_counterexample :
    (handleEditIncident c5State { name := "n", key := "k" } (some c5Patch)).2.1 =
      refuse "The incident has been edited more recently." ∧
    (handleEditIncident c5State { name := "n", key := "k" } (some c5Patch)).2.1.reason ≠
      some "stale" := by
  decide

/-- C5 (amended): a `PATCH /incident` whose body revision count is
strictly below the stored incident's revision count is rejected with an
unsuccessful `bad_request` response (details "The incident has been
edited more recently."), leaving the state untouched and broadcasting
nothing; every other `PATCH` for an existing, non-tombstoned id stores
the incident (with a fresh `{count: 1}` revision when the body carried
none) and broadcasts `update_incident`. -/
theorem c5_stale_patch_rejected (s : ServerState) (user : User)
    (incident cur : Incident) (hdel : incident.id ∉ s.deletedIncidents)
    (hcur : s.store incident.id = some cur) :
    (∀ rev, incident.revision = some rev →
      rev.count < currentRevisionCount (some cur) →
        handleEditIncident s user (some incident) =
          (s, refuse "The incident has been edited more recently.", [])) ∧
    (∀ rev, incident.revision = some rev →
      ¬ rev.count < currentRevisionCount (some cur) →
        handleEditIncident s user (some incident) =
          ({ s with store := fun k => if k = incident.id then some incident else s.store k },
            okResponse,
            [{ message := WsMessage.update_incident incident,
               sender := requestSender s user }])) ∧
    (incident.revision = none →
      handleEditIncident s user (some incident) =
        ({ s with store := fun k =>
            if k = incident.id then
              some (withFreshRevision incident (requestSender s user))
            else s.store k },
          okResponse,
          [{ message := WsMessage.update_incident
              (withFreshRevision incident (requestSender s user)),
             sender := requestSender s user }])) := by
  refine ⟨?_, ?_, ?_⟩
  · intro rev hrev h
    simp [handleEditIncident, hdel, hcur, hrev, h]
  · intro rev hrev h
    simp [handleEditIncident, hdel, hcur, hrev, h, editIncident]
  · intro hrev
    simp [handleEditIncident, hdel, hcur, hrev, editIncident, withFreshRevision]

/-- Witness for C5 (amended) at the counterexample state: the stale
branch fires for revision count 3 against stored count 5. -/
theorem c5_stale_patch_rejected_witness :
    c5Patch.id ∉ c5State.deletedIncidents ∧
    c5State.store c5Patch.id = some c5Stored ∧
    c5Patch.revision = some { count := 3, user := Sender.server, history := [] } ∧
    (3 : Nat) < currentRevisionCount (some c5Stored) ∧
    handleEditIncident c5State { name := "n", key := "k" } (some c5Patch) =
      (c5State, refuse "The incident has been edited more recently.", []) :=
  ⟨by decide, by decide, rfl, by decide,
    (c5_stale_patch_rejected c5State { name := "n", key := "k" } c5Patch c5Stored
      (by decide) (by decide)).1
      { count := 3, user := Sender.server, history := [] } rfl (by decide)⟩

/-- C9: a `PATCH /incident` whose body carries no revision bypasses the
staleness check entirely: whatever the stored incident's revision count,
the incident is stored with the fresh revision
`{count: 1, user: sender, history: []}` and `update_incident` is
broadcast, provided the id exists and is not tombstoned. -/
theorem c9_missing_revision_bypasses_staleness (s : ServerState) (user : User)
    (incident cur : Incident) (hrev : incident.revision = none)
    (hdel : incident.id ∉ s.deletedIncidents)
    (hcur : s.store incident.id = some cur) :
    handleEditIncident s user (some incident) =
      ({ s with store := fun k =>
          if k = incident.id then
            some (withFreshRevision incident (requestSender s user))
          else s.store k },
        okResponse,
        [{ message := WsMessage.update_incident
            (withFreshRevision incident (requestSender s user)),
           sender := requestSender s user }]) := by
  simp [handleEditIncident, hdel, hcur, hrev, editIncident, withFreshRevision]

/-- C9 witness: the stored incident sits at revision count 100; the
revision-free patch still overwrites it. -/
def c9Stored : Incident :=
  { c5Stored with revision := some { count := 100, user := Sender.server, history := [] } }

/-- C9 witness patch: no revision field at all. -/
def c9Patch : Incident := { c5Stored with revision := none }

/-- C9 witness state holding the count-100 incident. -/
def c9State : ServerState :=
  { c5State with store := fun k => if k = "incident1" then some c9Stored else none }

/-- C9 witness caller identity. -/
def c9User : User := { name := "n", key := "k" }

/-- C9 witness: the store contents expected after the revision-free
patch went through. -/
def c9StoreAfter : String → Option Incident := fun k =>
  if k = c9Patch.id then some (withFreshRevision c9Patch (requestSender c9State c9User))
  else c9State.store k

/-- Witness for C9 at the count-100 state. -/
theorem c9_missing_revision_bypasses_staleness_witness :
    c9Patch.revision = none ∧ c9Patch.id ∉ c9State.deletedIncidents ∧
    c9State.store c9Patch.id = some c9Stored ∧
    currentRevisionCount (some c9Stored) = 100 ∧
    handleEditIncident c9State c9User (some c9Patch) =
      ({ c9State with store := c9StoreAfter },
        okResponse,
        [{ message := WsMessage.update_incident
            (withFreshRevision c9Patch (requestSender c9State c9User)),
           sender := requestSender c9State c9User }]) :=
  ⟨rfl, by decide, by decide, by decide,
    c9_missing_revision_bypasses_staleness c9State c9User
      c9Patch c9Stored rfl (by decide) (by decide)⟩

theorem deleteIncident_incidents (s : ServerState) (id : String) :
    (deleteIncident s id).1.incidents = s.incidents.filter fun v => v != id := by
  unfold deleteIncident
  by_cases h : id ∈ s.deletedIncidents <;> simp [h]

theorem deleteIncident_deleted (s : ServerState) (id : String) :
    id ∈ (deleteIncident s id).1.deletedIncidents := by
  unfold deleteIncident
  by_cases h : id ∈ s.deletedIncidents <;> simp [h]

theorem deleteIncident_not_found (s : ServerState) (id : String)
    (h : id ∉ s.incidents) : (deleteIncident s id).2 = false := by
  have hfix : s.incidents.filter (fun v => v != id) = s.incidents :=
    List.filter_eq_self.mpr fun a ha => by
      simp only [bne_iff_ne, ne_eq, decide_eq_true_eq]
      exact fun e => h (e ▸ ha)
  unfold deleteIncident
  simp [hfix]

theorem handleDeleteIncident_fst (s : ServerState) (user : User) (id : String) :
    (handleDeleteIncident s user (some id)).1 = (deleteIncident s id).1 := by
  rcases hp : deleteIncident s id with ⟨s2, b⟩
  cases b <;> simp [handleDeleteIncident, hp]

/-- C6 counterexample state: one live incident `incident1`. -/
def c6State : ServerState :=
  { store := fun k => if k = "incident1" then some c5Stored else none
    incidents := ["incident1"]
    deletedIncidents := []
    scratchpadIds := []
    scratchpadStore := fun _ => none
    clients := [] }

/-- C6 is wrong about the second response: the first
`DELETE /incident?id=incident1` succeeds, but the second returns the
unsuccessful `bad_request` refusal "Could not find incident with that
ID" rather than a success response. -/
theorem c6_counterexample :
    (handleDeleteIncident c6State { name := "n", key := "k" } (some "incident1")).2.1.success
      = true ∧
    (handleDeleteIncident
        (handleDeleteIncident c6State { name := "n", key := "k" } (some "incident1")).1
        { name := "n", key := "k" } (some "incident1")).2.1 =
      refuse "Could not find incident with that ID" := by
  decide

/-- C6 (amended): a repeated `DELETE /incident` is a storage-level no-op
but not a reported success: after any first delete of an id, the second
delete answers with the unsuccessful `bad_request` refusal "Could not
find incident with that ID", triggers no broadcast, and still leaves the
id inside the tombstone set and outside the incident list. -/
theorem c6_second_delete_refused (s : ServerState) (user : User) (id : String) :
    (handleDeleteIncident (handleDeleteIncident s user (some id)).1 user (some id)).2.1 =
      refuse "Could not find incident with that ID" ∧
    (handleDeleteIncident (handleDeleteIncident s user (some id)).1 user (some id)).2.2 =
      [] ∧
    id ∈ (handleDeleteIncident (handleDeleteIncident s user (some id)).1 user
      (some id)).1.deletedIncidents ∧
    id ∉ (handleDeleteIncident (handleDeleteIncident s user (some id)).1 user
      (some id)).1.incidents := by
  have hs1 : (handleDeleteIncident s user (some id)).1 = (deleteIncident s id).1 :=
    handleDeleteIncident_fst s user id
  have hnot : id ∉ (deleteIncident s id).1.incidents := by
    rw [deleteIncident_incidents]
    simp
  have hsnd : (deleteIncident (deleteIncident s id).1 id).2 = false :=
    deleteIncident_not_found _ _ hnot
  have hstep : handleDeleteIncident (deleteIncident s id).1 user (some id) =
      ((deleteIncident (deleteIncident s id).1 id).1,
        refuse "Could not find incident with that ID", []) := by
    rcases hp : deleteIncident (deleteIncident s id).1 id with ⟨s2, b⟩
    have hb : b = false := by
      have hq := hsnd
      rw [hp] at hq
      exact hq
    subst hb
    simp [handleDeleteIncident, hp]
  rw [hs1, hstep]
  refine ⟨rfl, rfl, ?_, ?_⟩
  · exact deleteIncident_deleted _ _
  · rw [deleteIncident_incidents]
    simp

/-- C7: on a socket join, every previously registered session with the
joining peer's id is evicted before the new session is appended; both
outbound events — the `server_user_add` broadcast and the
`server_share_info` snapshot sent to the new socket — are emitted with
active-user lists computed from the post-eviction client list; the
deduped list holds exactly one session with the joining peer's id (the
new one), and distinctness of peer ids is preserved. -/
theorem c7_socket_dedupe (s : ServerState) (socket : Nat) (ip : String)
    (user : ShareUser) (h : s.clients.Pairwise fun c d => c.user.id ≠ d.user.id) :
    (∀ c ∈ (handleSessionJoin s socket ip user).1.clients, c.user.id = user.id →
      c = { user := user, socket := socket, ip := ip, active := true }) ∧
    ((handleSessionJoin s socket ip user).1.clients.countP
      fun c => c.user.id == user.id) = 1 ∧
    ((handleSessionJoin s socket ip user).1.clients.Pairwise
      fun c d => c.user.id ≠ d.user.id) ∧
    (handleSessionJoin s socket ip user).2 =
      [JoinEvent.broadcastUserAdd user
          (getActiveUsers (handleSessionJoin s socket ip user).1.clients),
        JoinEvent.sendShareInfo
          (getActiveUsers (handleSessionJoin s socket ip user).1.clients)
          s.incidents s.deletedIncidents] := by
  refine ⟨?_, ?_, ?_, rfl⟩
  · intro c hc hcid
    simp only [handleSessionJoin] at hc
    rw [List.mem_append] at hc
    rcases hc with hc | hc
    · obtain ⟨_, hfil⟩ := List.mem_filter.mp hc
      simp [hcid] at hfil
    · simpa using hc
  · simp only [handleSessionJoin]
    rw [List.countP_append]
    have h0 : ((s.clients.filter fun c => c.user.id != user.id).countP
        fun c => c.user.id == user.id) = 0 := by
      rw [List.countP_eq_zero]
      intro c hc
      obtain ⟨_, hfil⟩ := List.mem_filter.mp hc
      simpa using hfil
    simp [h0]
  · simp only [handleSessionJoin]
    rw [List.pairwise_append]
    refine ⟨h.filter _, by simp, ?_⟩
    intro a ha b hb
    obtain ⟨_, hfil⟩ := List.mem_filter.mp ha
    simp only [List.mem_singleton] at hb
    subst hb
    simpa using hfil

/-- C7 witness state: two registered sessions for distinct peers; `peer1`
reconnects. -/
def c7State : ServerState :=
  { store := fun _ => none
    incidents := ["incident9"]
    deletedIncidents := ["incident8"]
    scratchpadIds := []
    scratchpadStore := fun _ => none
    clients :=
      [{ user := { name := "Old", id := "peer1" }, socket := 0, ip := "a", active := true },
       { user := { name := "Other", id := "peer2" }, socket := 1, ip := "b", active := true }] }

/-- C7 witness joining peer: a reconnect of `peer1` on a new socket. -/
def c7User : ShareUser := { name := "New", id := "peer1" }

/-- Witness for C7 at the concrete reconnect. -/
theorem c7_socket_dedupe_witness :
    (c7State.clients.Pairwise fun c d => c.user.id ≠ d.user.id) ∧
    ((∀ c ∈ (handleSessionJoin c7State 2 "c" c7User).1.clients, c.user.id = c7User.id →
      c = { user := c7User, socket := 2, ip := "c", active := true }) ∧
    ((handleSessionJoin c7State 2 "c" c7User).1.clients.countP
      fun c => c.user.id == c7User.id) = 1 ∧
    ((handleSessionJoin c7State 2 "c" c7User).1.clients.Pairwise
      fun c d => c.user.id ≠ d.user.id) ∧
    (handleSessionJoin c7State 2 "c" c7User).2 =
      [JoinEvent.broadcastUserAdd c7User
          (getActiveUsers (handleSessionJoin c7State 2 "c" c7User).1.clients),
        JoinEvent.sendShareInfo
          (getActiveUsers (handleSessionJoin c7State 2 "c" c7User).1.clients)
          c7State.incidents c7State.deletedIncidents]) :=
  ⟨by decide, c7_socket_dedupe c7State 2 "c" c7User (by decide)⟩

/-- `matchToString` (incidents.ts:29-42): league matches render as their
name, skills attempts as `Auto`/`Driver` followed by `Skills` and the
attempt number. -/
def matchToString (m : IncidentMatch) : String :=
  match m with
  | IncidentMatch.matchRef _ name _ => name
  | IncidentMatch.skills st attempt =>
    (match st with
      | SkillsType.programming => "Auto"
      | SkillsType.driver => "Driver") ++ " Skills " ++ toString attempt

/-- The character class of the JavaScript regular expression `[\s\r\n]`
used on the notes column (`\r` and `\n` are already inside `\s`): the
JavaScript whitespace characters. -/
def jsWhitespace (c : Char) : Bool :=
  ([' ', '\t', '\n', '\r', '\x0b', '\x0c', ' ', ' ', ' ',
    ' ', ' ', ' ', ' ', ' ', ' ', ' ',
    ' ', ' ', ' ', ' ', ' ', ' ', ' ',
    '　', '﻿'] : List Char).contains c

/-- The notes sanitization of `handleCSV`
(`incident.notes.replaceAll(/[\s\r\n]/g, " ")`, incidents.ts:336):
every matching character is replaced by a space. -/
def sanitizeNotes (notes : String) : String :=
  String.mk (notes.data.map fun c => if jsWhitespace c then ' ' else c)

/-- One data row of `handleCSV` (incidents.ts:334-353). The rendering of
`new Date(incident.time).toISOString()` is abstracted by the `iso`
parameter. -/
def csvRow (iso : Nat → String) (incident : Incident) : String :=
  String.intercalate ","
    [iso incident.time,
      iso incident.time,
      incident.id,
      incident.event,
      (match incident.matchRef with
        | some (IncidentMatch.matchRef division _ _) => toString division
        | _ => ""),
      (match incident.matchRef with
        | some m => matchToString m
        | none => ""),
      incident.team,
      incident.outcome,
      String.intercalate " " incident.rules,
      sanitizeNotes incident.notes]

/-- `handleCSV` (incidents.ts:329-357): the header line followed by one
row per stored incident, joined with newlines. -/
def handleCSV (iso : Nat → String) (incidents : List Incident) : String :=
  "Date,Time,ID,SKU,Division,Match,Team,Outcome,Rules,Notes\n" ++
    String.intercalate "\n" (incidents.map (csvRow iso))

/-- The first line of a string: its characters before the first newline. -/
def firstLine (s : String) : String :=
  String.mk (s.data.takeWhile fun c => c != '\n')

theorem data_append (a b : String) : (a ++ b).data = a.data ++ b.data := by
  cases a with
  | mk la =>
    cases b with
    | mk lb => rfl

theorem takeWhile_append_stop {p : Char → Bool} (l1 : List Char) (c : Char)
    (l2 : List Char) (h1 : ∀ x ∈ l1, p x = true) (hc : p c = false) :
    (l1 ++ c :: l2).takeWhile p = l1 := by
  induction l1 with
  | nil => simp [List.takeWhile_cons, hc]
  | cons a rest ih =>
    have ha := h1 a (List.mem_cons_self _ _)
    simp [List.takeWhile_cons, ha, ih fun x hx => h1 x (List.mem_cons_of_mem _ hx)]

theorem firstLine_append (h t : String) (hh : ∀ c ∈ h.data, (c != '\n') = true) :
    firstLine (h ++ "\n" ++ t) = h := by
  unfold firstLine
  have hnl : ("\n" : String).data = ['\n'] := rfl
  have hd : (h ++ "\n" ++ t).data = h.data ++ '\n' :: t.data := by
    rw [data_append, data_append, hnl, List.append_assoc]
    rfl
  rw [hd, takeWhile_append_stop _ _ _ hh (by decide)]

/-- C8: the CSV export's first line is exactly the header
`Date,Time,ID,SKU,Division,Match,Team,Outcome,Rules,Notes`; every data
row joins with commas the two timestamp cells, id, SKU, division cell,
match cell, team, outcome, the rules joined by single spaces, and the
sanitized notes, where the match cell is `Auto Skills n` or
`Driver Skills n` for a skills reference, the league-match name for a
match reference, and empty without a match; and sanitization maps every
carriage-return, newline and tab of the notes to a space at the same
position, preserving length. -/
theorem c8_csv_export (iso : Nat → String) (incidents : List Incident) :
    firstLine (handleCSV iso incidents) =
      "Date,Time,ID,SKU,Division,Match,Team,Outcome,Rules,Notes" ∧
    (∀ incident ∈ incidents, csvRow iso incident =
      String.intercalate ","
        [iso incident.time,
          iso incident.time,
          incident.id,
          incident.event,
          (match incident.matchRef with
            | some (IncidentMatch.matchRef division _ _) => toString division
            | _ => ""),
          (match incident.matchRef with
            | some (IncidentMatch.matchRef _ name _) => name
            | some (IncidentMatch.skills SkillsType.programming n) =>
              "Auto Skills " ++ toString n
            | some (IncidentMatch.skills SkillsType.driver n) =>
              "Driver Skills " ++ toString n
            | none => ""),
          incident.team,
          incident.outcome,
          String.intercalate " " incident.rules,
          sanitizeNotes incident.notes]) ∧
    (∀ notes : String, (sanitizeNotes notes).data.length = notes.data.length ∧
      ∀ i : Nat, ∀ c : Char, notes.data.get? i = some c →
        c = '\r' ∨ c = '\n' ∨ c = '\t' →
        (sanitizeNotes notes).data.get? i = some ' ') := by
  refine ⟨?_, ?_, ?_⟩
  · have hsplit : ("Date,Time,ID,SKU,Division,Match,Team,Outcome,Rules,Notes\n" : String) =
        "Date,Time,ID,SKU,Division,Match,Team,Outcome,Rules,Notes" ++ "\n" := by
      decide
    unfold handleCSV
    rw [hsplit, String.append_assoc]
    exact firstLine_append "Date,Time,ID,SKU,Division,Match,Team,Outcome,Rules,Notes" _
      (by decide)
  · intro incident hmem
    have hcell : (match incident.matchRef with
        | some m => matchToString m
        | none => "") =
        (match incident.matchRef with
          | some (IncidentMatch.matchRef _ name _) => name
          | some (IncidentMatch.skills SkillsType.programming n) =>
            "Auto Skills " ++ toString n
          | some (IncidentMatch.skills SkillsType.driver n) =>
            "Driver Skills " ++ toString n
          | none => "") := by
      rcases hm : incident.matchRef with _ | m
      · rfl
      · rcases m with ⟨d, n, i⟩ | ⟨st, a⟩
        · rfl
        · rcases st with _ | _
          · show ("Auto" ++ " Skills ") ++ toString a = "Auto Skills " ++ toString a
            exact congrArg (fun x => x ++ toString a) (by decide)
          · show ("Driver" ++ " Skills ") ++ toString a = "Driver Skills " ++ toString a
            exact congrArg (fun x => x ++ toString a) (by decide)
    unfold csvRow
    rw [hcell]
  · intro notes
    constructor
    · simp [sanitizeNotes]
    · intro i c hget hc
      have hmap : (sanitizeNotes notes).data =
          notes.data.map fun c => if jsWhitespace c then ' ' else c := rfl
      rw [hmap, List.get?_map, hget]
      have hws : jsWhitespace c = true := by
        rcases hc with rfl | rfl | rfl <;> decide
      simp [hws]

/-- C8 witness timestamp rendering. -/
def c8Iso : Nat → String := fun _ => "2024-03-01T00:00:00.000Z"

/-- C8 witness incident: a driver-skills attempt with whitespace-laden
notes and two rules. -/
def c8Incident : Incident :=
  { id := "incident1", event := "RE-VRC-23-3690", team := "3796B"
    matchRef := some (IncidentMatch.skills SkillsType.driver 2)
    outcome := "Major", rules := ["<SG11>", "<S1>"], notes := "a\n\tb", time := 7
    revision := none }

/-- Witness for C8 at a concrete skills incident with notes `a\n\tb`. -/
theorem c8_csv_export_witness :
    firstLine (handleCSV c8Iso [c8Incident]) =
      "Date,Time,ID,SKU,Division,Match,Team,Outcome,Rules,Notes" ∧
    csvRow c8Iso c8Incident =
      String.intercalate ","
        [c8Iso c8Incident.time, c8Iso c8Incident.time, c8Incident.id, c8Incident.event,
          "", "Driver Skills " ++ toString 2, c8Incident.team, c8Incident.outcome,
          String.intercalate " " c8Incident.rules, sanitizeNotes c8Incident.notes] ∧
    ("a\n\tb".data.get? 1 = some '\n') ∧
    (sanitizeNotes "a\n\tb").data.get? 1 = some ' ' :=
  ⟨(c8_csv_export c8Iso [c8Incident]).1,
    (c8_csv_export c8Iso [c8Incident]).2.1 c8Incident (List.mem_singleton.mpr rfl),
    by decide,
    ((c8_csv_export c8Iso [c8Incident]).2.2 "a\n\tb").2 1 '\n' (by decide)
      (Or.inr (Or.inl rfl))⟩

/-- The stored scratchpad as the client edit path sees it
(`src/utils/data/scratchpad.ts`): a field dictionary from property name
to value — `JSON.stringify` comparisons are embedded as equality of the
value type — together with the revision. -/
structure MatchScratchpad (V : Type) where
  data : String → V
  revision : Option (Revision V)

/-- The properties `editScratchpad` skips (scratchpad.ts:72). -/
def scratchpadUnchangeable : List String := ["event", "match", "revision", "game"]

/-- The change list computed by `editScratchpad` (scratchpad.ts:70-83):
the loop iterates `Object.entries(scratchpad)` — the incoming patch — so
the variable the source names `currentValue` holds the patch entry's
value while `newValue` holds the stored value; for each non-unchangeable
entry whose value differs from the stored one, a `Change` is pushed with
`old := currentValue` and `new := newValue`. -/
def editScratchpadChanges {V : Type} [DecidableEq V]
    (current : MatchScratchpad V) (patch : List (String × V)) : List (Change V) :=
  patch.filterMap fun kv =>
    if kv.1 ∈ scratchpadUnchangeable then none
    else
      let currentValue := kv.2
      let newValue := current.data kv.1
      if currentValue ≠ newValue then
        some { property := kv.1, old := currentValue, new := newValue }
      else none

/-- The object spread `{...current, ...scratchpad}` of the write in
`editScratchpad` (scratchpad.ts:104-108): patch entries override the
stored fields. -/
def overlay {V : Type} (patch : List (String × V)) (fallback : String → V) :
    String → V :=
  fun k =>
    match jsLookup patch k with
    | some v => v
    | none => fallback k

/-- `editScratchpad` (scratchpad.ts:60-112): give up when the id is
unknown or no property changed; otherwise bump the revision (defaulting a
missing one to count 0), append a history entry carrying the change list,
and write the patched scratchpad. Returns the value written, if any. -/
def editScratchpad {V : Type} [DecidableEq V] (current : Option (MatchScratchpad V))
    (patch : List (String × V)) (user : Sender) (date : Nat) :
    Option (MatchScratchpad V) :=
  match current with
  | none => none
  | some cur =>
    let changes := editScratchpadChanges cur patch
    if changes.length < 1 then none
    else
      let revision :=
        match cur.revision with
        | some r => r
        | none => { count := 0, user := user, history := [] }
      let revision2 :=
        { revision with
          count := revision.count + 1
          history := revision.history ++ [{ user := user, date := date, changes := changes }] }
      some { data := overlay patch cur.data, revision := some revision2 }

/-- The change list computed by the client `editIncident`
(`src/utils/data/incident.ts:382-430`): the loop iterates
`Object.entries(current)` — the stored incident — so `currentValue` holds
the stored value and `newValue` the incoming patch value; `revision`,
`team` and `event` are skipped and each differing property is pushed with
`old := currentValue` and `new := newValue` — the direction opposite to
`editScratchpad`. -/
def editIncidentChanges {V : Type} [DecidableEq V]
    (current : List (String × V)) (patchData : String → V) : List (Change V) :=
  current.filterMap fun kv =>
    if kv.1 ∈ (["revision", "team", "event"] : List String) then none
    else
      let currentValue := kv.2
      let newValue := patchData kv.1
      if currentValue ≠ newValue then
        some { property := kv.1, old := currentValue, new := newValue }
      else none

/-- C10: when `editScratchpad` writes, the history entry it appends
carries exactly its computed change list; each such change stores the
incoming patch value in `old` and the previously stored value in `new`
(for a property that genuinely differs), which is the reverse of the
incident edit path, whose changes store the stored value in `old` and
the incoming value in `new`. -/
theorem c10_scratchpad_change_direction {V : Type} [DecidableEq V]
    (cur : MatchScratchpad V) (patch : List (String × V)) (user : Sender) (date : Nat)
    (out : MatchScratchpad V)
    (hout : editScratchpad (some cur) patch user date = some out) :
    (∃ r, out.revision = some r ∧
      ∃ hist entry, r.history = hist ++ [entry] ∧ entry.user = user ∧
        entry.changes = editScratchpadChanges cur patch) ∧
    (∀ c ∈ editScratchpadChanges cur patch,
      c.new = cur.data c.property ∧ (c.property, c.old) ∈ patch ∧ c.old ≠ c.new) ∧
    (∀ (curInc : List (String × V)) (patchInc : String → V),
      ∀ c ∈ editIncidentChanges curInc patchInc,
        c.old ≠ c.new ∧ (c.property, c.old) ∈ curInc ∧ c.new = patchInc c.property) := by
  refine ⟨?_, ?_, ?_⟩
  · unfold editScratchpad at hout
    by_cases hlen : (editScratchpadChanges cur patch).length < 1
    · simp [hlen] at hout
    · simp only [hlen, if_false] at hout
      rcases hr : cur.revision with _ | r0
      · rw [hr] at hout
        simp only [Option.some_inj] at hout
        subst hout
        exact ⟨_, rfl, [], _, rfl, rfl, rfl⟩
      · rw [hr] at hout
        simp only [Option.some_inj] at hout
        subst hout
        exact ⟨_, rfl, r0.history, _, rfl, rfl, rfl⟩
  · intro c hc
    unfold editScratchpadChanges at hc
    rw [List.mem_filterMap] at hc
    obtain ⟨kv, hkv, hval⟩ := hc
    by_cases hskip : kv.1 ∈ scratchpadUnchangeable
    · simp [hskip] at hval
    · simp only [hskip, if_false] at hval
      by_cases hne : kv.2 ≠ cur.data kv.1
      · rw [if_pos hne] at hval
        cases hval
        exact ⟨rfl, by simpa using hkv, hne⟩
      · simp [hne] at hval
  · intro curInc patchInc c hc
    unfold editIncidentChanges at hc
    rw [List.mem_filterMap] at hc
    obtain ⟨kv, hkv, hval⟩ := hc
    by_cases hskip : kv.1 ∈ (["revision", "team", "event"] : List String)
    · simp [hskip] at hval
    · simp only [hskip, if_false] at hval
      by_cases hne : kv.2 ≠ patchInc kv.1
      · rw [if_pos hne] at hval
        cases hval
        exact ⟨hne, by simpa using hkv, rfl⟩
      · simp [hne] at hval

/-- C10 witness stored scratchpad: every property reads `stored`. -/
def c10Cur : MatchScratchpad String := { data := fun _ => "stored", revision := none }

/-- C10 witness patch: a single differing `notes` entry. -/
def c10Patch : List (String × String) := [("notes", "incoming")]

/-- C10 witness output: the scratchpad `editScratchpad` writes for the
patch above. -/
def c10Out : MatchScratchpad String :=
  { data := overlay c10Patch c10Cur.data
    revision := some
      { count := 1, user := Sender.server
        history := [{ user := Sender.server, date := 0
                      changes := editScratchpadChanges c10Cur c10Patch }] } }

/-- Witness for C10 at the concrete one-entry patch. -/
theorem c10_scratchpad_change_direction_witness :
    editScratchpad (some c10Cur) c10Patch Sender.server 0 = some c10Out ∧
    ((∃ r, c10Out.revision = some r ∧
      ∃ hist entry, r.history = hist ++ [entry] ∧ entry.user = Sender.server ∧
        entry.changes = editScratchpadChanges c10Cur c10Patch) ∧
    (∀ c ∈ editScratchpadChanges c10Cur c10Patch,
      c.new = c10Cur.data c.property ∧ (c.property, c.old) ∈ c10Patch ∧ c.old ≠ c.new) ∧
    (∀ (curInc : List (String × String)) (patchInc : String → String),
      ∀ c ∈ editIncidentChanges curInc patchInc,
        c.old ≠ c.new ∧ (c.property, c.old) ∈ curInc ∧ c.new = patchInc c.property)) :=
  ⟨rfl, c10_scratchpad_change_direction c10Cur c10Patch Sender.server 0 c10Out rfl⟩

end RefereeFyi
